import Mathlib

/-!
Shallow embedding of the document state engine of a node-and-edge dialogue
editor: the graph data model (`Flowchart`, `Node`, `Edge`), the tag table
(`NODE_TAGS`, `getTagColor`), the normalization pass (`ensureSingleRoot`,
`applyDerivedFlowchart`), the mutation operations (`addNode`, `removeNode`,
`addEdge`, `removeEdge`), and the generic undo/redo transaction manager
(`UndoRedo` with `setState`, `setStateWithHistory`, transactions, `undo`,
`redo`).

Numeric payloads (positions, sizes) are modelled as `Int`; division by 2 in
connection-point synthesis is integer division, exact at every size the
sources construct (heights 80).  Fallible `addEdge` is modelled in `Except`.
-/

namespace FlowEdit

structure Pos where
  x : Int
  y : Int
deriving DecidableEq, Repr

structure Size where
  width : Int
  height : Int
deriving DecidableEq, Repr

inductive CPType where
  | input
  | output
deriving DecidableEq, Repr

structure ConnectionPoint where
  id : String
  type : CPType
  position : Pos
deriving DecidableEq, Repr

inductive NodeTag where
  | root
  | dialogue
  | option
  | choiceFlag
  | comment
deriving DecidableEq, Repr

structure Node where
  id : String
  position : Pos
  size : Size
  tag : NodeTag
  text : String
  actor : Option String := none
  childCount : Option Nat := none
  backgroundColor : String
  connectionPoints : List ConnectionPoint
  metadata : Option (List (String × String)) := none
deriving DecidableEq, Repr

structure Edge where
  id : String
  sourceNodeId : String
  sourcePointId : String
  targetNodeId : String
  targetPointId : String
  color : Option String := none
deriving DecidableEq, Repr

structure ViewState where
  x : Int
  y : Int
  scale : Int
deriving DecidableEq, Repr

structure Flowchart where
  nodes : List Node
  edges : List Edge
  metadata : List (String × String) := []
  viewState : Option ViewState := none
deriving DecidableEq, Repr

/-- The tag definition table of `nodeTag.ts` (`NODE_TAGS`). -/
structure NodeTagDef where
  tag : NodeTag
  label : String
  color : String
deriving DecidableEq, Repr

def NODE_TAGS : List NodeTagDef :=
  [ ⟨.root, "开始", "#E0E0E0"⟩
  , ⟨.dialogue, "对话", "#E3F2FD"⟩
  , ⟨.option, "选项", "#E8F5E9"⟩
  , ⟨.choiceFlag, "选择标志", "#FFF9C4"⟩
  , ⟨.comment, "注释", "#F3E5F5"⟩ ]

/-- `getNodeTagDef`: lookup in `NODE_TAGS`, falling back to `NODE_TAGS[0]!`. -/
def getNodeTagDef (tag : NodeTag) : NodeTagDef :=
  ((NODE_TAGS.find? fun t => decide (t.tag = tag)).getD ⟨.root, "开始", "#E0E0E0"⟩)

def getTagColor (tag : NodeTag) : String :=
  (getNodeTagDef tag).color

/-- `createRootNode(existingIds)`: synthesize the Root node; the preferred id
`"root"` falls back to the fixed `"root-node"` when taken. -/
def createRootNode (existingIds : List String := []) : Node :=
  let preferredId := "root"
  let id := if existingIds.contains preferredId then "root-node" else preferredId
  let size : Size := ⟨180, 80⟩
  { id := id
    position := ⟨400, 200⟩
    size := size
    tag := .root
    text := "对话开始"
    actor := none
    childCount := none
    backgroundColor := getTagColor .root
    connectionPoints :=
      [ ⟨id ++ "-input", .input, ⟨0, -(size.height / 2)⟩⟩
      , ⟨id ++ "-output", .output, ⟨0, size.height / 2⟩⟩ ] }

/-- The refresh applied to the first-encountered root in `ensureSingleRoot`. -/
def rootRefresh (n : Node) : Node :=
  { n with text := "对话开始", actor := none, childCount := none,
           backgroundColor := getTagColor .root }

/-- The downgrade applied to every further root in `ensureSingleRoot`. -/
def rootDowngrade (n : Node) : Node :=
  { n with tag := .dialogue, actor := some "", backgroundColor := getTagColor .dialogue }

/-- The `flowchart.nodes.map` of the multiple-roots branch of
`ensureSingleRoot`, with its mutable `kept` flag made an explicit argument. -/
def downgradeExtraRoots : Bool → List Node → List Node
  | _, [] => []
  | kept, n :: rest =>
    if n.tag = .root then
      if kept then rootDowngrade n :: downgradeExtraRoots true rest
      else rootRefresh n :: downgradeExtraRoots true rest
    else n :: downgradeExtraRoots kept rest

def ensureSingleRoot (flowchart : Flowchart) : Flowchart :=
  let roots := flowchart.nodes.filter fun n => decide (n.tag = .root)
  if roots.length = 1 then flowchart
  else if roots.length = 0 then
    let ids := flowchart.nodes.map Node.id
    { flowchart with nodes := createRootNode ids :: flowchart.nodes }
  else
    { flowchart with nodes := downgradeExtraRoots false flowchart.nodes }

/-- `outgoingCounts.get(n.id) || 0`: the number of edges whose `sourceNodeId`
is `nodeId` (the source builds the same counts by one pass over `edges`). -/
def outDegree (edges : List Edge) (nodeId : String) : Nat :=
  (edges.filter fun e => decide (e.sourceNodeId = nodeId)).length

/-- The per-node body of the `withRoot.nodes.map` in `applyDerivedFlowchart`.
In the typed model `n.tag` is never absent, so the dialogue default in
`n.tag || ...` never fires and the tag is `n.tag`. -/
def deriveNode (edges : List Edge) (n : Node) : Node :=
  let tag := n.tag
  let base : Node := { n with tag := tag, backgroundColor := getTagColor tag }
  match tag with
  | .root => { base with text := "对话开始", actor := none, childCount := none }
  | .choiceFlag =>
      { base with text := "", actor := none, childCount := some (outDegree edges n.id) }
  | _ => { base with childCount := none }

def applyDerivedFlowchart (flowchart : Flowchart) : Flowchart :=
  let withRoot := ensureSingleRoot flowchart
  { withRoot with nodes := withRoot.nodes.map (deriveNode withRoot.edges) }

def addNode (flowchart : Flowchart) (node : Node) : Flowchart :=
  { flowchart with nodes := flowchart.nodes ++ [node] }

def removeNode (flowchart : Flowchart) (nodeId : String) : Flowchart :=
  { flowchart with
    nodes := flowchart.nodes.filter fun node => decide (node.id ≠ nodeId)
    edges := flowchart.edges.filter fun edge =>
      decide (edge.sourceNodeId ≠ nodeId) && decide (edge.targetNodeId ≠ nodeId) }

/-- The duplicate test of `addEdge`: identical
(sourceNodeId, sourcePointId, targetNodeId, targetPointId) tuple. -/
def sameEndpoints (e edge : Edge) : Bool :=
  decide (e.sourceNodeId = edge.sourceNodeId) &&
  decide (e.sourcePointId = edge.sourcePointId) &&
  decide (e.targetNodeId = edge.targetNodeId) &&
  decide (e.targetPointId = edge.targetPointId)

/-- `addEdge`: throwing `new Error(...)` is modelled as `Except.error`. -/
def addEdge (flowchart : Flowchart) (edge : Edge) : Except String Flowchart :=
  let sourceExists := flowchart.nodes.any fun n => decide (n.id = edge.sourceNodeId)
  let targetExists := flowchart.nodes.any fun n => decide (n.id = edge.targetNodeId)
  if !sourceExists || !targetExists then
    .error "Source or target node does not exist"
  else
    let duplicate := flowchart.edges.any fun e => sameEndpoints e edge
    if duplicate then .ok flowchart
    else .ok { flowchart with edges := flowchart.edges ++ [edge] }

def removeEdge (flowchart : Flowchart) (edgeId : String) : Flowchart :=
  { flowchart with edges := flowchart.edges.filter fun edge => decide (edge.id ≠ edgeId) }

/-!
The undo/redo transaction manager of `useUndoRedo.ts`.  The mutable refs of
the hook (`stateRef`, `undoStack`, `redoStack`, `transactionStartRef`) become the
fields of one state record; each callback becomes a state-to-state function.
JS strict equality (`===`) on the generic payload is modelled by decidable
equality on `T`.  Stacks grow by `push` at the back and evict by `shift` at
the front.
-/

structure UndoRedo (T : Type) where
  current : T
  undoStack : List T
  redoStack : List T
  transactionAnchor : Option T
  maxHistory : Nat
deriving Repr

/-- `stack.push(v)` followed by `if (stack.length > maxHistory) stack.shift()`. -/
def pushBounded {T : Type} (maxHistory : Nat) (stack : List T) (v : T) : List T :=
  if maxHistory < (stack ++ [v]).length then (stack ++ [v]).drop 1 else stack ++ [v]

variable {T : Type}

/-- The initial state of the hook: empty stacks, no active transaction. -/
def initUndoRedo (initialState : T) (maxHistory : Nat) : UndoRedo T :=
  { current := initialState, undoStack := [], redoStack := [],
    transactionAnchor := none, maxHistory := maxHistory }

/-- `setState` (the "immediate" update): replaces `current` only. -/
def setState (s : UndoRedo T) (v : T) : UndoRedo T :=
  { s with current := v }

def setStateWithHistory [DecidableEq T] (s : UndoRedo T) (v : T) : UndoRedo T :=
  if v = s.current then s
  else
    { s with
      current := v
      undoStack := pushBounded s.maxHistory s.undoStack s.current
      redoStack := [] }

def startTransaction (s : UndoRedo T) : UndoRedo T :=
  match s.transactionAnchor with
  | some _ => s
  | none => { s with transactionAnchor := some s.current }

def commitTransaction [DecidableEq T] (s : UndoRedo T) : UndoRedo T :=
  match s.transactionAnchor with
  | none => s
  | some anchor =>
    if anchor = s.current then { s with transactionAnchor := none }
    else
      { s with
        undoStack := pushBounded s.maxHistory s.undoStack anchor
        redoStack := []
        transactionAnchor := none }

def cancelTransaction (s : UndoRedo T) : UndoRedo T :=
  match s.transactionAnchor with
  | none => s
  | some anchor => { s with current := anchor, transactionAnchor := none }

/-- `undo`: abandon any active transaction, pop the undo stack (no-op when
empty), push the old `current` onto the bounded redo stack. -/
def undo (s : UndoRedo T) : UndoRedo T :=
  let s := { s with transactionAnchor := none }
  match s.undoStack.getLast? with
  | none => s
  | some prev =>
    { s with
      undoStack := s.undoStack.dropLast
      redoStack := pushBounded s.maxHistory s.redoStack s.current
      current := prev }

def redo (s : UndoRedo T) : UndoRedo T :=
  let s := { s with transactionAnchor := none }
  match s.redoStack.getLast? with
  | none => s
  | some next =>
    { s with
      redoStack := s.redoStack.dropLast
      undoStack := pushBounded s.maxHistory s.undoStack s.current
      current := next }

def resetHistory (s : UndoRedo T) : UndoRedo T :=
  { s with undoStack := [], redoStack := [], transactionAnchor := none }

/-- One user-visible operation of the manager, for quantifying over
arbitrary operation sequences. -/
inductive MOp (T : Type) where
  | setI : T → MOp T
  | setH : T → MOp T
  | startTx : MOp T
  | commitTx : MOp T
  | cancelTx : MOp T
  | undoOp : MOp T
  | redoOp : MOp T
  | reset : MOp T

def applyOp [DecidableEq T] (s : UndoRedo T) : MOp T → UndoRedo T
  | .setI v => setState s v
  | .setH v => setStateWithHistory s v
  | .startTx => startTransaction s
  | .commitTx => commitTransaction s
  | .cancelTx => cancelTransaction s
  | .undoOp => undo s
  | .redoOp => redo s
  | .reset => resetHistory s

def applyOps [DecidableEq T] (s : UndoRedo T) (ops : List (MOp T)) : UndoRedo T :=
  ops.foldl applyOp s

/-! ### Helper lemmas about normalization -/

/-- Number of Root-variant nodes (the `roots.length` of `ensureSingleRoot`). -/
def rootCount (ns : List Node) : Nat :=
  (ns.filter fun n => decide (n.tag = .root)).length

/-- `rootDowngrade` applied exactly to the Root-tagged nodes; this is what the
multiple-roots branch does to every node after the first kept root. -/
def rootDowngradeIfRoot (n : Node) : Node :=
  if n.tag = .root then rootDowngrade n else n

theorem rootCount_nil : rootCount [] = 0 := rfl

theorem rootCount_cons (n : Node) (ns : List Node) :
    rootCount (n :: ns) = (if n.tag = .root then 1 else 0) + rootCount ns := by
  by_cases h : n.tag = .root <;>
    simp [rootCount, List.filter_cons, h, Nat.add_comm]

theorem rootCount_append (l₁ l₂ : List Node) :
    rootCount (l₁ ++ l₂) = rootCount l₁ + rootCount l₂ := by
  simp [rootCount, List.filter_append]

theorem rootCount_eq_zero (l : List Node) :
    rootCount l = 0 ↔ ∀ n ∈ l, n.tag ≠ NodeTag.root := by
  simp [rootCount, List.length_eq_zero, List.filter_eq_nil_iff]

theorem deriveNode_tag (es : List Edge) (n : Node) : (deriveNode es n).tag = n.tag := by
  cases n with
  | mk i p s tag t a c b cp m => cases tag <;> rfl

theorem deriveNode_id (es : List Edge) (n : Node) : (deriveNode es n).id = n.id := by
  cases n with
  | mk i p s tag t a c b cp m => cases tag <;> rfl

theorem deriveNode_idem (es : List Edge) (n : Node) :
    deriveNode es (deriveNode es n) = deriveNode es n := by
  cases n with
  | mk i p s tag t a c b cp m => cases tag <;> rfl

theorem deriveNode_rootRefresh (es : List Edge) (n : Node) (h : n.tag = .root) :
    deriveNode es (rootRefresh n) = deriveNode es n := by
  cases n with
  | mk i p s tag t a c b cp m =>
    cases h
    rfl

theorem deriveNode_createRootNode (es : List Edge) (ids : List String) :
    deriveNode es (createRootNode ids) = createRootNode ids := by
  by_cases h : ids.contains "root" <;> simp [createRootNode, deriveNode, h]

theorem rootRefresh_tag (n : Node) : (rootRefresh n).tag = n.tag := rfl

theorem rootDowngrade_tag (n : Node) : (rootDowngrade n).tag = .dialogue := rfl

theorem rootCount_map_deriveNode (es : List Edge) (ns : List Node) :
    rootCount (ns.map (deriveNode es)) = rootCount ns := by
  induction ns with
  | nil => rfl
  | cons n rest ih =>
      simp only [List.map_cons, rootCount_cons, deriveNode_tag, ih]

theorem downgradeExtraRoots_true (ns : List Node) :
    downgradeExtraRoots true ns = ns.map rootDowngradeIfRoot := by
  induction ns with
  | nil => rfl
  | cons n rest ih =>
      by_cases h : n.tag = .root <;>
        simp [downgradeExtraRoots, rootDowngradeIfRoot, h, ih]

theorem rootCount_map_downgradeIfRoot (ns : List Node) :
    rootCount (ns.map rootDowngradeIfRoot) = 0 := by
  induction ns with
  | nil => rfl
  | cons n rest ih =>
      by_cases h : n.tag = .root <;>
        simp [rootDowngradeIfRoot, rootCount_cons, h, ih, rootDowngrade_tag]

theorem downgradeExtraRoots_false_decomp (pre : List Node) (r : Node) (post : List Node)
    (hpre : rootCount pre = 0) (hr : r.tag = .root) :
    downgradeExtraRoots false (pre ++ r :: post) =
      pre ++ rootRefresh r :: post.map rootDowngradeIfRoot := by
  induction pre with
  | nil =>
      simp [downgradeExtraRoots, hr, downgradeExtraRoots_true]
  | cons p pre' ih =>
      have hp : p.tag ≠ NodeTag.root := by
        intro h
        rw [rootCount_cons, if_pos h] at hpre
        omega
      have hpre' : rootCount pre' = 0 := by
        rw [rootCount_cons, if_neg hp] at hpre
        omega
      simp [downgradeExtraRoots, hp, ih hpre']

theorem rootCount_downgrade_false (ns : List Node) (h : 1 ≤ rootCount ns) :
    rootCount (downgradeExtraRoots false ns) = 1 := by
  induction ns with
  | nil => simp [rootCount_nil] at h
  | cons n rest ih =>
      by_cases hn : n.tag = .root
      · simp [downgradeExtraRoots, hn, rootCount_cons, rootRefresh_tag,
              downgradeExtraRoots_true, rootCount_map_downgradeIfRoot]
      · rw [rootCount_cons, if_neg hn] at h
        simp only [downgradeExtraRoots, if_neg hn, rootCount_cons, if_neg hn]
        rw [ih (by omega)]

theorem ensureSingleRoot_of_one (fc : Flowchart) (h : rootCount fc.nodes = 1) :
    ensureSingleRoot fc = fc := by
  unfold ensureSingleRoot
  unfold rootCount at h
  simp [h]

theorem ensureSingleRoot_of_zero (fc : Flowchart) (h : rootCount fc.nodes = 0) :
    ensureSingleRoot fc =
      { fc with nodes := createRootNode (fc.nodes.map Node.id) :: fc.nodes } := by
  unfold ensureSingleRoot
  unfold rootCount at h
  simp [h]

theorem ensureSingleRoot_of_many (fc : Flowchart) (h : 2 ≤ rootCount fc.nodes) :
    ensureSingleRoot fc = { fc with nodes := downgradeExtraRoots false fc.nodes } := by
  unfold ensureSingleRoot
  unfold rootCount at h
  have h1 : ¬(fc.nodes.filter fun n => decide (n.tag = .root)).length = 1 := by omega
  have h0 : ¬(fc.nodes.filter fun n => decide (n.tag = .root)).length = 0 := by omega
  simp [h1, h0]

theorem ensureSingleRoot_edges (fc : Flowchart) : (ensureSingleRoot fc).edges = fc.edges := by
  rcases Nat.lt_or_ge (rootCount fc.nodes) 2 with hlt | hge
  · interval_cases h : rootCount fc.nodes
    · rw [ensureSingleRoot_of_zero fc h]
    · rw [ensureSingleRoot_of_one fc h]
  · rw [ensureSingleRoot_of_many fc hge]

theorem applyDerived_nodes (fc : Flowchart) :
    (applyDerivedFlowchart fc).nodes =
      (ensureSingleRoot fc).nodes.map (deriveNode fc.edges) := by
  show (ensureSingleRoot fc).nodes.map (deriveNode (ensureSingleRoot fc).edges) = _
  rw [ensureSingleRoot_edges]

theorem applyDerived_edges (fc : Flowchart) :
    (applyDerivedFlowchart fc).edges = fc.edges := by
  show (ensureSingleRoot fc).edges = fc.edges
  exact ensureSingleRoot_edges fc

theorem rootCount_normalize (fc : Flowchart) :
    rootCount (applyDerivedFlowchart fc).nodes = 1 := by
  rw [applyDerived_nodes, rootCount_map_deriveNode]
  rcases Nat.lt_or_ge (rootCount fc.nodes) 2 with hlt | hge
  · interval_cases h : rootCount fc.nodes
    · rw [ensureSingleRoot_of_zero fc h]
      simp [rootCount_cons, createRootNode, h]
    · rw [ensureSingleRoot_of_one fc h]
      exact h
  · rw [ensureSingleRoot_of_many fc hge]
    exact rootCount_downgrade_false fc.nodes (by omega)

theorem deriveNode_choiceFlag (es : List Edge) (n : Node) (h : n.tag = .choiceFlag) :
    (deriveNode es n).text = "" ∧
      (deriveNode es n).childCount = some (outDegree es n.id) := by
  cases n with
  | mk i p s tag t a c b cp m =>
    cases h
    exact ⟨rfl, rfl⟩

theorem deriveNode_not_choiceFlag (es : List Edge) (n : Node) (h : n.tag ≠ .choiceFlag) :
    (deriveNode es n).childCount = none := by
  cases n with
  | mk i p s tag t a c b cp m =>
    cases tag <;> first | rfl | exact absurd rfl h

theorem flowchart_eta (fc : Flowchart) : { fc with nodes := fc.nodes } = fc := rfl

/-! ### Helper lemmas about the undo/redo manager -/

theorem pushBounded_getLast? {T : Type} (N : Nat) (l : List T) (v : T) (h : 1 ≤ N) :
    (pushBounded N l v).getLast? = some v := by
  unfold pushBounded
  split
  · next hlt =>
      cases l with
      | nil => simp at hlt; omega
      | cons a l' => simp [List.getLast?_concat]
  · exact List.getLast?_concat _

theorem pushBounded_nil {T : Type} (N : Nat) (v : T) (h : 1 ≤ N) :
    pushBounded N ([] : List T) v = [v] := by
  unfold pushBounded
  simp
  omega

theorem pushBounded_length_le {T : Type} (N : Nat) (l : List T) (v : T)
    (h : l.length ≤ N) : (pushBounded N l v).length ≤ N := by
  unfold pushBounded
  split
  · next hlt =>
      simp only [List.length_drop, List.length_append, List.length_cons, List.length_nil]
      omega
  · next hge =>
      simp only [List.length_append, List.length_cons, List.length_nil] at hge ⊢
      omega

/-- The bounded-stacks invariant of the manager. -/
def StacksBounded {T : Type} (s : UndoRedo T) : Prop :=
  s.undoStack.length ≤ s.maxHistory ∧ s.redoStack.length ≤ s.maxHistory

theorem applyOp_maxHistory {T : Type} [DecidableEq T] (s : UndoRedo T) (op : MOp T) :
    (applyOp s op).maxHistory = s.maxHistory := by
  obtain ⟨cur, us, rs, anc, N⟩ := s
  cases op with
  | setI v => rfl
  | setH v =>
      show (setStateWithHistory _ v).maxHistory = N
      unfold setStateWithHistory
      split <;> rfl
  | startTx => cases anc <;> rfl
  | commitTx =>
      cases anc with
      | none => rfl
      | some anchor =>
          show (commitTransaction _).maxHistory = N
          unfold commitTransaction
          dsimp only
          split <;> rfl
  | cancelTx => cases anc <;> rfl
  | undoOp =>
      show (undo _).maxHistory = N
      unfold undo
      dsimp only
      cases h : us.getLast? <;> rfl
  | redoOp =>
      show (redo _).maxHistory = N
      unfold redo
      dsimp only
      cases h : rs.getLast? <;> rfl
  | reset => rfl

theorem applyOp_bounded {T : Type} [DecidableEq T] (s : UndoRedo T) (op : MOp T)
    (hs : StacksBounded s) : StacksBounded (applyOp s op) := by
  obtain ⟨cur, us, rs, anc, N⟩ := s
  obtain ⟨hu, hr⟩ := hs
  simp only [StacksBounded] at hu hr ⊢
  cases op with
  | setI v => exact ⟨hu, hr⟩
  | setH v =>
      show StacksBounded (setStateWithHistory _ v)
      unfold setStateWithHistory
      split
      · exact ⟨hu, hr⟩
      · exact ⟨pushBounded_length_le _ _ _ hu, by simp⟩
  | startTx => cases anc <;> exact ⟨hu, hr⟩
  | commitTx =>
      cases anc with
      | none => exact ⟨hu, hr⟩
      | some anchor =>
          show StacksBounded (commitTransaction _)
          unfold commitTransaction
          dsimp only
          split
          · exact ⟨hu, hr⟩
          · exact ⟨pushBounded_length_le _ _ _ hu, by simp⟩
  | cancelTx => cases anc <;> exact ⟨hu, hr⟩
  | undoOp =>
      show StacksBounded (undo _)
      unfold undo
      dsimp only
      cases h : us.getLast? with
      | none => exact ⟨hu, hr⟩
      | some prev =>
          refine ⟨?_, pushBounded_length_le _ _ _ hr⟩
          have := List.length_dropLast us
          dsimp only [StacksBounded]
          omega
  | redoOp =>
      show StacksBounded (redo _)
      unfold redo
      dsimp only
      cases h : rs.getLast? with
      | none => exact ⟨hu, hr⟩
      | some next =>
          refine ⟨pushBounded_length_le _ _ _ hu, ?_⟩
          have := List.length_dropLast rs
          dsimp only [StacksBounded]
          omega
  | reset => refine ⟨?_, ?_⟩ <;> simp [applyOp, resetHistory]

theorem applyOps_bounded {T : Type} [DecidableEq T] (s : UndoRedo T) (ops : List (MOp T))
    (hs : StacksBounded s) : StacksBounded (applyOps s ops) := by
  induction ops generalizing s with
  | nil => exact hs
  | cons op rest ih => exact ih _ (applyOp_bounded s op hs)

theorem applyOps_maxHistory {T : Type} [DecidableEq T] (s : UndoRedo T) (ops : List (MOp T)) :
    (applyOps s ops).maxHistory = s.maxHistory := by
  induction ops generalizing s with
  | nil => rfl
  | cons op rest ih => rw [applyOps, List.foldl_cons, ← applyOps, ih, applyOp_maxHistory]

theorem applyDerived_of_one (fc : Flowchart) (h : rootCount fc.nodes = 1) :
    applyDerivedFlowchart fc = { fc with nodes := fc.nodes.map (deriveNode fc.edges) } := by
  simp only [applyDerivedFlowchart]
  rw [ensureSingleRoot_of_one fc h]

theorem normalize_nodes_of_zero (d : Flowchart) (h : rootCount d.nodes = 0) :
    (applyDerivedFlowchart d).nodes =
      createRootNode (d.nodes.map Node.id) :: d.nodes.map (deriveNode d.edges) := by
  rw [applyDerived_nodes, ensureSingleRoot_of_zero d h]
  simp [deriveNode_createRootNode]

/-! ### Sample data used by witnesses and counterexamples -/

def sampleRootA : Node :=
  { id := "a", position := ⟨0, 0⟩, size := ⟨150, 80⟩, tag := .root, text := "x",
    actor := none, childCount := none, backgroundColor := "#FFFFFF",
    connectionPoints := [] }

def sampleRootB : Node := { sampleRootA with id := "b" }

def docTwoRoots : Flowchart := { nodes := [sampleRootA, sampleRootB], edges := [] }

def docNoRoot : Flowchart := { nodes := [], edges := [] }

def sampleCF : Node :=
  { id := "cf", position := ⟨0, 0⟩, size := ⟨150, 80⟩, tag := .choiceFlag, text := "hello",
    actor := none, childCount := none, backgroundColor := "#FFFFFF",
    connectionPoints := [] }

def sampleEdgeCF : Edge :=
  { id := "e1", sourceNodeId := "cf", sourcePointId := "cf-output",
    targetNodeId := "a", targetPointId := "a-input" }

def docCF : Flowchart := { nodes := [sampleRootA, sampleCF], edges := [sampleEdgeCF] }

def nodeIdRoot : Node := { sampleRootA with id := "root", tag := .dialogue }

def nodeIdRootNode : Node := { sampleRootA with id := "root-node", tag := .dialogue }

def docTakenIds : Flowchart := { nodes := [nodeIdRoot, nodeIdRootNode], edges := [] }

/-! ### Claim theorems -/

/-- C1: normalize (`applyDerivedFlowchart`) yields exactly one Root-variant
node; with no root in the input a synthesized root is inserted at the front,
and with several roots the first-encountered one is kept while every later
one is downgraded to the dialogue variant (empty actor, dialogue background
color, as recorded in `rootDowngradeIfRoot`). -/
theorem normalize_single_root_spec (d : Flowchart) :
    rootCount (applyDerivedFlowchart d).nodes = 1 ∧
    (rootCount d.nodes = 0 →
      (applyDerivedFlowchart d).nodes =
        createRootNode (d.nodes.map Node.id) :: d.nodes.map (deriveNode d.edges)) ∧
    (∀ pre r post, d.nodes = pre ++ r :: post → rootCount pre = 0 → r.tag = .root →
      (applyDerivedFlowchart d).nodes =
        pre.map (deriveNode d.edges) ++
          deriveNode d.edges (rootRefresh r) ::
            post.map (fun n => deriveNode d.edges (rootDowngradeIfRoot n))) := by
  refine ⟨rootCount_normalize d, normalize_nodes_of_zero d, ?_⟩
  intro pre r post hd hpre hr
  rw [applyDerived_nodes]
  rcases Nat.eq_zero_or_pos (rootCount post) with hpost | hpost
  · have h1 : rootCount d.nodes = 1 := by
      rw [hd, rootCount_append, rootCount_cons, if_pos hr, hpre, hpost]
    rw [ensureSingleRoot_of_one d h1, hd, List.map_append, List.map_cons,
        deriveNode_rootRefresh d.edges r hr]
    congr 1
    congr 1
    apply List.map_congr_left
    intro n hn
    have hnr : n.tag ≠ NodeTag.root := (rootCount_eq_zero post).1 hpost n hn
    simp [rootDowngradeIfRoot, hnr]
  · have h2 : 2 ≤ rootCount d.nodes := by
      rw [hd, rootCount_append, rootCount_cons, if_pos hr, hpre]
      omega
    rw [ensureSingleRoot_of_many d h2]
    dsimp only
    rw [hd, downgradeExtraRoots_false_decomp pre r post hpre hr,
        List.map_append, List.map_cons, List.map_map]
    rfl

/-- Witness for C1: the no-root document gets the synthesized root at the
front; in the two-root document the first root is kept and the second is
downgraded. -/
theorem normalize_single_root_witness :
    (applyDerivedFlowchart docNoRoot).nodes =
      createRootNode (docNoRoot.nodes.map Node.id) ::
        docNoRoot.nodes.map (deriveNode docNoRoot.edges) ∧
    (applyDerivedFlowchart docTwoRoots).nodes =
      ([] : List Node).map (deriveNode docTwoRoots.edges) ++
        deriveNode docTwoRoots.edges (rootRefresh sampleRootA) ::
          [sampleRootB].map (fun n => deriveNode docTwoRoots.edges (rootDowngradeIfRoot n)) :=
  ⟨(normalize_single_root_spec docNoRoot).2.1 rfl,
   (normalize_single_root_spec docTwoRoots).2.2 [] sampleRootA [sampleRootB] rfl rfl rfl⟩

/-- C2: normalization is idempotent. -/
theorem normalize_idempotent_spec (d : Flowchart) :
    applyDerivedFlowchart (applyDerivedFlowchart d) = applyDerivedFlowchart d := by
  have hcomp : deriveNode d.edges ∘ deriveNode d.edges = deriveNode d.edges :=
    funext (deriveNode_idem d.edges)
  rw [applyDerived_of_one _ (rootCount_normalize d), applyDerived_edges d,
      applyDerived_nodes d, List.map_map, hcomp, ← applyDerived_nodes d,
      ← applyDerived_edges d]

/-- C3: in a normalized document every choiceFlag node has empty text and
derived child count equal to the out-degree of its id in the input edges,
and every other node has no child count. -/
theorem choiceFlag_derived_spec (d : Flowchart) :
    ∀ n ∈ (applyDerivedFlowchart d).nodes,
      (n.tag = .choiceFlag →
        n.text = "" ∧ n.childCount = some (outDegree d.edges n.id)) ∧
      (n.tag ≠ .choiceFlag → n.childCount = none) := by
  intro n hn
  rw [applyDerived_nodes] at hn
  obtain ⟨m, hm, rfl⟩ := List.mem_map.1 hn
  constructor
  · intro htag
    rw [deriveNode_tag] at htag
    obtain ⟨h1, h2⟩ := deriveNode_choiceFlag d.edges m htag
    exact ⟨h1, by rw [deriveNode_id]; exact h2⟩
  · intro htag
    rw [deriveNode_tag] at htag
    exact deriveNode_not_choiceFlag d.edges m htag

/-- Witness for C3 at a concrete document with one choiceFlag node and one
outgoing edge from it. -/
theorem choiceFlag_derived_witness :
    (deriveNode docCF.edges sampleCF).text = "" ∧
      (deriveNode docCF.edges sampleCF).childCount =
        some (outDegree docCF.edges (deriveNode docCF.edges sampleCF).id) :=
  (choiceFlag_derived_spec docCF (deriveNode docCF.edges sampleCF) (by decide)).1 rfl

/-- C10 counterexample: with existing node ids "root" and "root-node" and no
root-variant node, the synthesized root receives the fixed fallback id
"root-node", which collides with an existing id. -/
theorem root_id_fallback_counterexample :
    rootCount docTakenIds.nodes = 0 ∧
    docTakenIds.nodes.map Node.id = ["root", "root-node"] ∧
    (applyDerivedFlowchart docTakenIds).nodes.map Node.id =
      ["root-node", "root", "root-node"] := by
  refine ⟨rfl, rfl, rfl⟩

/-- C10 amended: with no root node, normalize inserts the synthesized root at
the front; its id is "root" when that id is free and otherwise the fixed
fallback "root-node" (which can collide); when "root" is free the synthesized
id is distinct from every existing id. -/
theorem root_synthesis_spec (d : Flowchart) (h : rootCount d.nodes = 0) :
    (applyDerivedFlowchart d).nodes =
      createRootNode (d.nodes.map Node.id) :: d.nodes.map (deriveNode d.edges) ∧
    (createRootNode (d.nodes.map Node.id)).id =
      (if "root" ∈ d.nodes.map Node.id then "root-node" else "root") ∧
    ("root" ∉ d.nodes.map Node.id →
      (createRootNode (d.nodes.map Node.id)).id ∉ d.nodes.map Node.id) := by
  have hid : (createRootNode (d.nodes.map Node.id)).id =
      (if "root" ∈ d.nodes.map Node.id then "root-node" else "root") := by
    by_cases hmem : "root" ∈ d.nodes.map Node.id <;>
      simp [createRootNode, hmem]
  refine ⟨normalize_nodes_of_zero d h, hid, ?_⟩
  intro hfree
  rw [hid, if_neg hfree]
  exact hfree

/-- Witness for C10 amended at the empty document: the synthesized id is
"root" and collides with nothing. -/
theorem root_synthesis_witness :
    (applyDerivedFlowchart docNoRoot).nodes =
      createRootNode (docNoRoot.nodes.map Node.id) ::
        docNoRoot.nodes.map (deriveNode docNoRoot.edges) ∧
    (createRootNode (docNoRoot.nodes.map Node.id)).id =
      (if "root" ∈ docNoRoot.nodes.map Node.id then "root-node" else "root") ∧
    (createRootNode (docNoRoot.nodes.map Node.id)).id ∉ docNoRoot.nodes.map Node.id :=
  ⟨(root_synthesis_spec docNoRoot rfl).1, (root_synthesis_spec docNoRoot rfl).2.1,
   (root_synthesis_spec docNoRoot rfl).2.2 (by decide)⟩

/-- C4 counterexample: when the second immediate update returns to the
pre-transaction value, the commit pushes nothing and the following undo pops
an older history entry, so `current` does not return to the pre-transaction
value. -/
theorem transaction_atomic_counterexample :
    (undo (commitTransaction (setState (setState (startTransaction
        ({ current := 0, undoStack := [5], redoStack := [], transactionAnchor := none,
           maxHistory := 100 } : UndoRedo Nat)) 1) 0))).current ≠ 0 := by
  decide

/-- C4 amended: with no active transaction, `b` distinct from the current
value and a positive history bound, the gesture commits exactly one entry
(the pre-transaction value) and undo restores that value. -/
theorem transaction_atomic_spec {T : Type} [DecidableEq T] (s0 : UndoRedo T) (a b : T)
    (hA : s0.transactionAnchor = none) (hb : b ≠ s0.current) (hN : 1 ≤ s0.maxHistory) :
    (undo (commitTransaction (setState (setState (startTransaction s0) a) b))).current
        = s0.current ∧
    (commitTransaction (setState (setState (startTransaction s0) a) b)).undoStack
        = pushBounded s0.maxHistory s0.undoStack s0.current := by
  obtain ⟨cur, us, rs, anc, N⟩ := s0
  dsimp only at hA hb hN ⊢
  subst hA
  show (undo (commitTransaction (⟨b, us, rs, some cur, N⟩ : UndoRedo T))).current = cur ∧
       (commitTransaction (⟨b, us, rs, some cur, N⟩ : UndoRedo T)).undoStack
          = pushBounded N us cur
  unfold commitTransaction
  dsimp only
  rw [if_neg fun h => hb h.symm]
  refine ⟨?_, rfl⟩
  unfold undo
  dsimp only
  rw [pushBounded_getLast? N us cur hN]

/-- Witness for C4 amended at a concrete Nat-valued manager. -/
theorem transaction_atomic_witness :
    (undo (commitTransaction (setState (setState (startTransaction
        (initUndoRedo (0 : Nat) 100)) 1) 2))).current = 0 ∧
    (commitTransaction (setState (setState (startTransaction
        (initUndoRedo (0 : Nat) 100)) 1) 2)).undoStack = pushBounded 100 [] 0 :=
  transaction_atomic_spec (initUndoRedo 0 100) 1 2 rfl (by decide) (by decide)

/-- C5 counterexample: with history bound 0 every push is immediately
evicted, so after two history-producing updates undo is a no-op and
`current` stays at the second value instead of returning to the first. -/
theorem undo_redo_roundtrip_counterexample :
    (undo (setStateWithHistory (setStateWithHistory
        (initUndoRedo (0 : Nat) 0) 1) 2)).current ≠ 1 := by
  decide

/-- C5 amended: with no active transaction, pairwise distinct values and a
positive history bound, undo returns to `v1` and redo restores `v2`. -/
theorem undo_redo_roundtrip_spec {T : Type} [DecidableEq T] (s0 : UndoRedo T) (v1 v2 : T)
    (hA : s0.transactionAnchor = none) (h1 : v1 ≠ s0.current) (h2 : v2 ≠ v1)
    (h3 : v2 ≠ s0.current) (hN : 1 ≤ s0.maxHistory) :
    (undo (setStateWithHistory (setStateWithHistory s0 v1) v2)).current = v1 ∧
    (redo (undo (setStateWithHistory (setStateWithHistory s0 v1) v2))).current = v2 := by
  obtain ⟨cur, us, rs, anc, N⟩ := s0
  dsimp only at hA h1 h2 h3 hN ⊢
  have e1 : setStateWithHistory (⟨cur, us, rs, anc, N⟩ : UndoRedo T) v1
      = ⟨v1, pushBounded N us cur, [], anc, N⟩ := by
    unfold setStateWithHistory
    rw [if_neg h1]
  have e2 : setStateWithHistory (⟨v1, pushBounded N us cur, [], anc, N⟩ : UndoRedo T) v2
      = ⟨v2, pushBounded N (pushBounded N us cur) v1, [], anc, N⟩ := by
    unfold setStateWithHistory
    rw [if_neg h2]
  have e3 : undo (⟨v2, pushBounded N (pushBounded N us cur) v1, [], anc, N⟩ : UndoRedo T)
      = ⟨v1, (pushBounded N (pushBounded N us cur) v1).dropLast,
          pushBounded N [] v2, none, N⟩ := by
    unfold undo
    dsimp only
    rw [pushBounded_getLast? N _ v1 hN]
  rw [e1, e2, e3]
  refine ⟨rfl, ?_⟩
  unfold redo
  dsimp only
  rw [pushBounded_nil N v2 hN]
  rfl

/-- Witness for C5 amended at a concrete Nat-valued manager. -/
theorem undo_redo_roundtrip_witness :
    (undo (setStateWithHistory (setStateWithHistory
        (initUndoRedo (0 : Nat) 100) 1) 2)).current = 1 ∧
    (redo (undo (setStateWithHistory (setStateWithHistory
        (initUndoRedo (0 : Nat) 100) 1) 2))).current = 2 :=
  undo_redo_roundtrip_spec (initUndoRedo 0 100) 1 2 rfl (by decide) (by decide)
    (by decide) (by decide)

/-- C6: when the source or target node id of the edge is absent from the
node list, `addEdge` fails with the reference error and produces no
document. -/
theorem addEdge_missing_ref_spec (fc : Flowchart) (e : Edge)
    (h : (∀ n ∈ fc.nodes, n.id ≠ e.sourceNodeId) ∨
         (∀ n ∈ fc.nodes, n.id ≠ e.targetNodeId)) :
    addEdge fc e = Except.error "Source or target node does not exist" := by
  rcases h with h | h
  · have hs : (fc.nodes.any fun n => decide (n.id = e.sourceNodeId)) = false := by
      rw [List.any_eq_false]
      intro n hn
      simp [h n hn]
    simp [addEdge, hs]
  · have ht : (fc.nodes.any fun n => decide (n.id = e.targetNodeId)) = false := by
      rw [List.any_eq_false]
      intro n hn
      simp [h n hn]
    simp [addEdge, ht]

/-- Witness for C6: adding an edge to the empty document fails. -/
theorem addEdge_missing_ref_witness :
    addEdge docNoRoot sampleEdgeCF
      = Except.error "Source or target node does not exist" :=
  addEdge_missing_ref_spec docNoRoot sampleEdgeCF (Or.inl (by simp [docNoRoot]))

theorem addEdge_error_of (fc : Flowchart) (e : Edge)
    (h : (fc.nodes.any fun n => decide (n.id = e.sourceNodeId)) = false ∨
         (fc.nodes.any fun n => decide (n.id = e.targetNodeId)) = false) :
    addEdge fc e = Except.error "Source or target node does not exist" := by
  rcases h with h | h <;> simp [addEdge, h]

theorem addEdge_ok_dup (fc : Flowchart) (e : Edge)
    (hs : (fc.nodes.any fun n => decide (n.id = e.sourceNodeId)) = true)
    (ht : (fc.nodes.any fun n => decide (n.id = e.targetNodeId)) = true)
    (hdup : (fc.edges.any fun e2 => sameEndpoints e2 e) = true) :
    addEdge fc e = Except.ok fc := by
  simp [addEdge, hs, ht, hdup]

theorem addEdge_ok_new (fc : Flowchart) (e : Edge)
    (hs : (fc.nodes.any fun n => decide (n.id = e.sourceNodeId)) = true)
    (ht : (fc.nodes.any fun n => decide (n.id = e.targetNodeId)) = true)
    (hdup : (fc.edges.any fun e2 => sameEndpoints e2 e) = false) :
    addEdge fc e = Except.ok { fc with edges := fc.edges ++ [e] } := by
  simp [addEdge, hs, ht, hdup]

theorem sameEndpoints_self (e : Edge) : sameEndpoints e e = true := by
  simp [sameEndpoints]

def docDanglingDup : Flowchart := { nodes := [], edges := [sampleEdgeCF] }

/-- C7 counterexample: a document already containing an identical-endpoint
edge whose endpoints are not in the node list makes `addEdge` throw instead
of returning the document unchanged. -/
theorem addEdge_duplicate_counterexample :
    (docDanglingDup.edges.any fun e2 => sameEndpoints e2 sampleEdgeCF) = true ∧
    addEdge docDanglingDup sampleEdgeCF
      = Except.error "Source or target node does not exist" ∧
    addEdge docDanglingDup sampleEdgeCF ≠ Except.ok docDanglingDup := by
  refine ⟨rfl, rfl, ?_⟩
  intro h
  exact Except.noConfusion h

/-- C7 amended: adding the same edge twice (in `Except`) equals adding it
once, and a duplicate-endpoint add returns the document unchanged provided
the endpoint nodes exist. -/
theorem addEdge_idempotent_spec (fc : Flowchart) (e : Edge) :
    (addEdge fc e).bind (fun fc2 => addEdge fc2 e) = addEdge fc e ∧
    ((fc.edges.any fun e2 => sameEndpoints e2 e) = true →
      (fc.nodes.any fun n => decide (n.id = e.sourceNodeId)) = true →
      (fc.nodes.any fun n => decide (n.id = e.targetNodeId)) = true →
      addEdge fc e = Except.ok fc) := by
  constructor
  · cases hs : (fc.nodes.any fun n => decide (n.id = e.sourceNodeId)) with
    | false =>
        rw [addEdge_error_of fc e (Or.inl hs)]
        rfl
    | true =>
        cases ht : (fc.nodes.any fun n => decide (n.id = e.targetNodeId)) with
        | false =>
            rw [addEdge_error_of fc e (Or.inr ht)]
            rfl
        | true =>
            cases hdup : (fc.edges.any fun e2 => sameEndpoints e2 e) with
            | false =>
                rw [addEdge_ok_new fc e hs ht hdup]
                show addEdge { fc with edges := fc.edges ++ [e] } e
                    = Except.ok { fc with edges := fc.edges ++ [e] }
                apply addEdge_ok_dup
                · exact hs
                · exact ht
                · show ((fc.edges ++ [e]).any fun e2 => sameEndpoints e2 e) = true
                  simp [List.any_append, sameEndpoints_self]
            | true =>
                rw [addEdge_ok_dup fc e hs ht hdup]
                show addEdge fc e = Except.ok fc
                exact addEdge_ok_dup fc e hs ht hdup
  · intro hdup hs ht
    exact addEdge_ok_dup fc e hs ht hdup

def docForDup : Flowchart :=
  { nodes := [{ sampleRootA with id := "cf" }, sampleRootB], edges := [] }

/-- Witness for C7 amended: concrete run where the duplicate branch fires. -/
theorem addEdge_idempotent_witness :
    addEdge { docForDup with edges := [{ sampleEdgeCF with targetNodeId := "b" }] }
        { sampleEdgeCF with targetNodeId := "b" }
      = Except.ok { docForDup with edges := [{ sampleEdgeCF with targetNodeId := "b" }] } :=
  (addEdge_idempotent_spec
      { docForDup with edges := [{ sampleEdgeCF with targetNodeId := "b" }] }
      { sampleEdgeCF with targetNodeId := "b" }).2 (by decide) (by decide) (by decide)

/-- C8: removing a node removes exactly that node and exactly the edges
incident to it. -/
theorem removeNode_cascade_spec (d : Flowchart) (nid : String)
    (_hpresent : ∃ m ∈ d.nodes, m.id = nid) :
    (∀ m ∈ (removeNode d nid).nodes, m.id ≠ nid) ∧
    (∀ e ∈ (removeNode d nid).edges, e.sourceNodeId ≠ nid ∧ e.targetNodeId ≠ nid) ∧
    (∀ m ∈ d.nodes, m.id ≠ nid → m ∈ (removeNode d nid).nodes) ∧
    (∀ e ∈ d.edges, e.sourceNodeId ≠ nid → e.targetNodeId ≠ nid →
      e ∈ (removeNode d nid).edges) := by
  refine ⟨?_, ?_, ?_, ?_⟩
  · intro m hm
    simp only [removeNode, List.mem_filter, decide_eq_true_eq] at hm
    exact hm.2
  · intro e he
    simp only [removeNode, List.mem_filter, Bool.and_eq_true, decide_eq_true_eq] at he
    exact he.2
  · intro m hm hne
    simp only [removeNode, List.mem_filter, decide_eq_true_eq]
    exact ⟨hm, hne⟩
  · intro e he hs ht
    simp only [removeNode, List.mem_filter, Bool.and_eq_true, decide_eq_true_eq]
    exact ⟨he, hs, ht⟩

/-- Witness for C8: after deleting the choiceFlag node from `docCF`, the
root node survives. -/
theorem removeNode_cascade_witness :
    sampleRootA ∈ (removeNode docCF "cf").nodes :=
  (removeNode_cascade_spec docCF "cf" ⟨sampleCF, by decide, rfl⟩).2.2.1 sampleRootA
    (by decide) (by decide)

/-- C9: starting from the initial manager state with bound N, any sequence
of manager operations keeps both stacks at length at most N. -/
theorem bounded_history_spec {T : Type} [DecidableEq T] (v : T) (N : Nat)
    (ops : List (MOp T)) :
    (applyOps (initUndoRedo v N) ops).undoStack.length ≤ N ∧
    (applyOps (initUndoRedo v N) ops).redoStack.length ≤ N := by
  have h0 : StacksBounded (initUndoRedo v N) :=
    ⟨by simp [initUndoRedo], by simp [initUndoRedo]⟩
  obtain ⟨h1, h2⟩ := applyOps_bounded _ ops h0
  rw [applyOps_maxHistory] at h1 h2
  exact ⟨h1, h2⟩

/-- Witness for C9: three pushes against bound 1 keep the stack at length 1. -/
theorem bounded_history_witness :
    (applyOps (initUndoRedo (0 : Nat) 1)
        [MOp.setH 1, MOp.setH 2, MOp.setH 3]).undoStack.length ≤ 1 ∧
    (applyOps (initUndoRedo (0 : Nat) 1)
        [MOp.setH 1, MOp.setH 2, MOp.setH 3]).redoStack.length ≤ 1 :=
  bounded_history_spec 0 1 [MOp.setH 1, MOp.setH 2, MOp.setH 3]

end FlowEdit
